import Mathlib

/-!
Verification of the FlipFlop dynamic instance store and its wire renderer.

The store (`InstanceManager`) is the generic packed-array + slot-table + GPU-mirror
component described in the specification; `wire.rs` and `main.rs` are its callers.
Machine integers are modelled as `Nat`/`Int`; `f32` values are modelled as exact
rationals (`Rat`) — every constant appearing in the wire geometry (1/16, 1/2) is a
dyadic rational, and the only float operations performed are copies, integer
conversions, additions of constants and comparisons, all of which the rational
model reflects faithfully. Rust/glam `i32` arithmetic is modelled faithfully as
two's-complement wrapping arithmetic: every operation is reduced into
`[-2^31, 2^31)` by `toI32` (explicit `% 2^32`), which is the release-profile
behaviour of the overflow cases (the dev profile panics at the same inputs, so
an overflowing input never yields the idealized unbounded-integer result in
either profile); `i32` division truncates toward zero (`Int.tdiv`).
-/

namespace FlipFlop

/-- Modelled from the spec: the state of one slot-table entry
(spec.md section 3, "Slot"). -/
inductive SlotState where
  | Free
  | Occupied
deriving DecidableEq

/-- Modelled from the spec: a slot-table entry, `(state, generation, packed_index)`;
`packed_index` is meaningful only when the slot is `Occupied` (spec.md section 3). -/
structure Slot where
  state : SlotState
  generation : Nat
  packed_index : Nat
deriving DecidableEq

/-- Modelled from the spec: an opaque handle `(slot_index, generation)`
(spec.md section 3, "Handle"). -/
structure Handle where
  slot_index : Nat
  generation : Nat
deriving DecidableEq

/-- Modelled from the spec: a packed-store record `(data, owner_slot)`
(spec.md section 3, "Packed Record"). -/
structure PackedRecord (α : Type) where
  data : α
  owner_slot : Nat
deriving DecidableEq

/-- Modelled from the spec: the instance store missing from `src/`
(`crate::instance::InstanceManager`, used by `wire.rs`): a slot table,
a free-list of recycled slot indices, the dense packed store, and the
GPU mirror's capacity (spec.md sections 3-4).  The packed list stands for
both the host array and the device buffer contents: the spec guarantees the
mirror always holds `Packed Store[0..live_count)` after a `buffer()` call. -/
structure InstanceManager (α : Type) where
  slots : List Slot
  free_list : List Nat
  packed : List (PackedRecord α)
  gpu_capacity : Nat
deriving DecidableEq

namespace InstanceManager

variable {α : Type}

/-- Modelled from the spec: a fresh store with initial GPU capacity `c` and no
live records. -/
def empty (c : Nat) : InstanceManager α := ⟨[], [], [], c⟩

/-- Modelled from the spec: `len() -> live_count` (spec.md section 4.2/4.3). -/
def len (m : InstanceManager α) : Nat := m.packed.length

/-- Modelled from the spec: `resolve(handle) -> Option<packed_index>`; some
packed index iff the slot exists, is `Occupied` and the generation matches
(spec.md section 4.1). -/
def resolve (m : InstanceManager α) (h : Handle) : Option Nat :=
  match m.slots[h.slot_index]? with
  | some s =>
      if s.state = SlotState.Occupied ∧ s.generation = h.generation then
        some s.packed_index
      else
        none
  | none => none

/-- Modelled from the spec: `insert(data) -> Handle` — allocate a slot (recycle
from the free-list when possible, else append a fresh slot with generation 0),
append the record to the packed store, link slot→packed_index, return
`(slot_index, generation)` (spec.md sections 4.1 and 4.3).  The inner `none`
branch is unreachable for well-formed stores (every free-list entry indexes an
existing slot) and falls back to appending a fresh slot. -/
def insert (m : InstanceManager α) (r : α) : InstanceManager α × Handle :=
  match m.free_list with
  | j :: rest =>
    match m.slots[j]? with
    | some s =>
        ({ m with
            slots := m.slots.set j
              ⟨SlotState.Occupied, s.generation, m.packed.length⟩,
            free_list := rest,
            packed := m.packed ++ [⟨r, j⟩] },
         ⟨j, s.generation⟩)
    | none =>
        ({ m with
            slots := m.slots ++ [⟨SlotState.Occupied, 0, m.packed.length⟩],
            free_list := rest,
            packed := m.packed ++ [⟨r, m.slots.length⟩] },
         ⟨m.slots.length, 0⟩)
  | [] =>
      ({ m with
          slots := m.slots ++ [⟨SlotState.Occupied, 0, m.packed.length⟩],
          packed := m.packed ++ [⟨r, m.slots.length⟩] },
       ⟨m.slots.length, 0⟩)

/-- Modelled from the spec: `update(handle, data)` — no-op on a stale handle,
otherwise overwrite the packed record's payload in place (spec.md section 4.3). -/
def update (m : InstanceManager α) (h : Handle) (r : α) : InstanceManager α :=
  match m.resolve h with
  | none => m
  | some i =>
    match m.packed[i]? with
    | some old => { m with packed := m.packed.set i ⟨r, old.owner_slot⟩ }
    | none => m

/-- Modelled from the spec: `remove(handle) -> bool` — `false` on a stale
handle; otherwise swap-remove the packed record (move the last record into
its place unless it is the last), fix up the moved record's slot→packed_index
mapping, free the slot (bumping its generation) and push it on the free-list
(spec.md sections 4.2 and 4.3).  The inner `none` branches are unreachable for
well-formed stores. -/
def remove (m : InstanceManager α) (h : Handle) : InstanceManager α × Bool :=
  match m.slots[h.slot_index]? with
  | none => (m, false)
  | some s =>
    if s.state = SlotState.Occupied ∧ s.generation = h.generation then
      let i := s.packed_index
      let last := m.packed.length - 1
      let fixed_slots :=
        if i = last then m.slots
        else
          match m.packed[last]? with
          | some r =>
            match m.slots[r.owner_slot]? with
            | some s2 => m.slots.set r.owner_slot { s2 with packed_index := i }
            | none => m.slots
          | none => m.slots
      let new_packed :=
        if i = last then m.packed.take last
        else
          match m.packed[last]? with
          | some r => (m.packed.set i r).take last
          | none => m.packed.take last
      ({ m with
          slots := fixed_slots.set h.slot_index
            ⟨SlotState.Free, s.generation + 1, s.packed_index⟩,
          free_list := h.slot_index :: m.free_list,
          packed := new_packed },
       true)
    else (m, false)

/-- Modelled from the spec: `buffer() -> Option<GPU buffer view>` — `none` when
the live count is 0; otherwise grow the device buffer geometrically if needed
and return the mirrored contents, `Packed Store[0..live_count)` in packed order
(spec.md sections 4.3 and the GPU Mirror algorithm). -/
def buffer (m : InstanceManager α) : InstanceManager α × Option (List α) :=
  if m.packed.length = 0 then (m, none)
  else
    let grown :=
      if m.gpu_capacity < m.packed.length then
        { m with gpu_capacity := 2 * m.packed.length }
      else m
    (grown, some (grown.packed.map (fun r => r.data)))

end InstanceManager

/-- Modelled from the spec: the dynamic-store well-formedness invariants of
spec.md section 3: forward and backward slot/packed index maps agree, every
free-list entry names an existing `Free` slot, and the free-list holds no
duplicates. -/
structure WF {α : Type} (m : InstanceManager α) : Prop where
  owner_back : ∀ (i : Nat) (r : PackedRecord α), m.packed[i]? = some r →
    ∃ s : Slot, m.slots[r.owner_slot]? = some s ∧
      s.state = SlotState.Occupied ∧ s.packed_index = i
  slot_fwd : ∀ (j : Nat) (s : Slot), m.slots[j]? = some s → s.state = SlotState.Occupied →
    ∃ r : PackedRecord α, m.packed[s.packed_index]? = some r ∧ r.owner_slot = j
  free_mem : ∀ j ∈ m.free_list,
    ∃ s : Slot, m.slots[j]? = some s ∧ s.state = SlotState.Free
  free_nodup : m.free_list.Nodup

/-- The spec's validity predicate for a handle: the slot exists, is `Occupied`,
and carries the handle's generation (spec.md section 3, final invariant). -/
def validHandle {α : Type} (m : InstanceManager α) (h : Handle) : Prop :=
  ∃ s, m.slots[h.slot_index]? = some s ∧
    s.state = SlotState.Occupied ∧ s.generation = h.generation

/-- An operation against the instance store, for reasoning about arbitrary
operation sequences. -/
inductive Op (α : Type) where
  | insert (r : α)
  | update (h : Handle) (r : α)
  | remove (h : Handle)

/-- Apply one operation, reporting the handle issued when it was an insert. -/
def applyOp {α : Type} (m : InstanceManager α) : Op α → InstanceManager α × Option Handle
  | Op.insert r => ((m.insert r).1, some (m.insert r).2)
  | Op.update h r => (m.update h r, none)
  | Op.remove h => ((m.remove h).1, none)

/-- Run a sequence of operations from a fresh store with initial capacity `c`,
collecting the handles issued by the inserts, in issue order. -/
def applyOpsH {α : Type} (c : Nat) (ops : List (Op α)) : InstanceManager α × List Handle :=
  ops.foldl
    (fun acc op => ((applyOp acc.1 op).1, acc.2 ++ (applyOp acc.1 op).2.toList))
    (InstanceManager.empty c, [])

/-- The slot table produced by `n` inserts into a fresh store: slot `k` is
occupied at packed index `k` with generation 0. -/
def pureSlots (n : Nat) : List Slot :=
  (List.range n).map (fun k => ⟨SlotState.Occupied, 0, k⟩)

/-- The packed store produced by inserting the records `L` in order starting at
packed index `k`. -/
def purePacked {α : Type} : List α → Nat → List (PackedRecord α)
  | [], _ => []
  | a :: l, k => ⟨a, k⟩ :: purePacked l (k + 1)

/-- The store state reached by inserting the records `L` in order into a fresh
store with initial capacity `c`. -/
def pureState {α : Type} (c : Nat) (L : List α) : InstanceManager α :=
  ⟨pureSlots L.length, [], purePacked L 0, c⟩

/-- Every issued handle is pinned under the current slot table: its slot exists,
its generation never exceeds the slot's, and is strictly below it whenever the
slot is free.  This is the inductive invariant behind handle uniqueness. -/
def IssuedOk {α : Type} (m : InstanceManager α) (hs : List Handle) : Prop :=
  ∀ h ∈ hs, ∃ s, m.slots[h.slot_index]? = some s ∧
    h.generation ≤ s.generation ∧
    (s.state = SlotState.Free → h.generation < s.generation)

/- ══ wire renderer (src/src/wire.rs) ══ -/

/-- A render-pass command issued by `WireRenderer::draw` (wire.rs lines 262-275). -/
inductive RenderCommand where
  | setPipeline
  | setVertexBuffer (slot : Nat)
  | setIndexBuffer
  | setBindGroup (index : Nat)
  | drawIndexed (indexCount : Nat) (instanceCount : Nat)
deriving DecidableEq

/-- The quad index list `INDICES` (wire.rs line 87). -/
def INDICES : List Nat := [0, 1, 2, 0, 2, 3]

/-- Reduce an integer to its two's-complement `i32` representative in
`[-2^31, 2^31)`.  This is the value semantics of every overflowing `i32`
operation under Rust's release profile (the dev profile panics instead at
exactly the same inputs). -/
def toI32 (n : Int) : Int := (n + 2 ^ 31) % 2 ^ 32 - 2 ^ 31

/-- The proposition that an integer is a representable `i32` value. -/
def i32InRange (n : Int) : Prop := -2 ^ 31 ≤ n ∧ n < 2 ^ 31

instance (n : Int) : Decidable (i32InRange n) :=
  inferInstanceAs (Decidable (-2 ^ 31 ≤ n ∧ n < 2 ^ 31))

/-- `i32` addition (wrapping). -/
def i32add (a b : Int) : Int := toI32 (a + b)

/-- `i32` subtraction (wrapping). -/
def i32sub (a b : Int) : Int := toI32 (a - b)

/-- `i32` multiplication (wrapping). -/
def i32mul (a b : Int) : Int := toI32 (a * b)

/-- `i32::abs` (wrapping: `i32::MIN.abs()` is `i32::MIN` again). -/
def i32abs (a : Int) : Int := toI32 |a|

/-- `i32` division: truncation toward zero, wrapping on the one overflowing
case `i32::MIN / -1`. -/
def i32div (a b : Int) : Int := toI32 (Int.tdiv a b)

/-- `WIRE_RADIUS` (wire.rs line 69), the f32 constant 1/16 as an exact rational. -/
def WIRE_RADIUS : Rat := 1 / 16

/-- `PIN_RADIUS` (wire.rs line 70), the f32 constant 2/16 as an exact rational. -/
def PIN_RADIUS : Rat := 2 / 16

/-- `WireRect` (wire.rs lines 279-283); `Vec2` is modelled as a pair of exact
rationals. -/
structure WireRect where
  position : Rat × Rat
  size : Rat × Rat
  is_powered : Bool
deriving DecidableEq

/-- `Wire` (wire.rs lines 285-289); `IVec2` is modelled as a pair of integers
and the `end` field is renamed `endPos` because `end` is reserved in Lean. -/
structure Wire where
  start : Int × Int
  endPos : Int × Int
  is_powered : Bool
deriving DecidableEq

/-- The GPU instance record `Instance` (wire.rs lines 34-40): two f32 pairs and
a `u32` flag. -/
structure Instance where
  position : Rat × Rat
  size : Rat × Rat
  is_powered : Nat
deriving DecidableEq

/-- Rust `bool as u32`: `false` is 0, `true` is 1. -/
def boolToU32 (b : Bool) : Nat := if b then 1 else 0

/-- `Instance::new` (wire.rs lines 60-66): copy position and size, convert the
powered flag to `u32`. -/
def Instance.new (wire : WireRect) : Instance :=
  { position := wire.position
    size := wire.size
    is_powered := boolToU32 wire.is_powered }

/-- `impl From<Wire> for WireRect` (wire.rs lines 291-305).  The `IVec2`
arithmetic is `i32` arithmetic, embedded with two's-complement wrapping
semantics (`i32sub`, `i32abs`, `i32div`); `/ 2` is Rust `i32` division, i.e.
truncation toward zero; `as_f32` is the integer-to-rational cast (exact on the
magnitudes this code is exercised with). -/
def WireRect.fromWire (wire : Wire) : WireRect :=
  let position := wire.start
  let size := (i32sub wire.endPos.1 wire.start.1, i32sub wire.endPos.2 wire.start.2)
  let abs_size := (i32abs size.1, i32abs size.2)
  let abs_position :=
    (i32sub position.1 (i32div (i32sub abs_size.1 size.1) 2),
     i32sub position.2 (i32div (i32sub abs_size.2 size.2) 2))
  { position := ((abs_position.1 : Rat) + (1 / 2 - WIRE_RADIUS),
                 (abs_position.2 : Rat) + (1 / 2 - WIRE_RADIUS))
    size := ((abs_size.1 : Rat) + 2 * WIRE_RADIUS,
             (abs_size.2 : Rat) + 2 * WIRE_RADIUS)
    is_powered := wire.is_powered }

/-- `WireRenderer` (wire.rs lines 89-97), reduced to the state the claims are
about: its instance store.  The pipeline, vertex/index buffers and bind groups
are opaque device objects whose bindings appear as `RenderCommand`s. -/
structure WireRenderer where
  instances : InstanceManager Instance

/-- `WireRenderer::draw` (wire.rs lines 251-276): read `len()`, ask the store
for its buffer, and if it is `None` return without issuing any render-pass
command; otherwise bind the pipeline, both vertex buffers, the index buffer and
both bind groups, then issue one indexed draw over `INDICES.len()` indices and
`instance_count` instances. -/
def WireRenderer.draw (w : WireRenderer) : WireRenderer × List RenderCommand :=
  let instance_count := w.instances.len
  match InstanceManager.buffer w.instances with
  | (m, none) => (⟨m⟩, [])
  | (m, some _) =>
      (⟨m⟩,
       [RenderCommand.setPipeline,
        RenderCommand.setVertexBuffer 0,
        RenderCommand.setVertexBuffer 1,
        RenderCommand.setIndexBuffer,
        RenderCommand.setBindGroup 0,
        RenderCommand.setBindGroup 1,
        RenderCommand.drawIndexed INDICES.length instance_count])

/- ══ cursor placement (src/src/main.rs) ══ -/

/-- The `CursorMode::Place` payload tracked by `State` (main.rs lines 30-36),
restricted to the two positions the claim is about. -/
structure PlaceState where
  start_position : Int × Int
  end_position : Int × Int
deriving DecidableEq

/-- Entering place mode on left-press (main.rs lines 299-330): both positions
start at the cursor tile. -/
def placeGestureStart (p : Int × Int) : PlaceState := ⟨p, p⟩

/-- `IVec2::X`. -/
def IVec2_X : Int × Int := (1, 0)

/-- `IVec2::Y`. -/
def IVec2_Y : Int × Int := (0, 1)

/-- Component-wise `IVec2` product (`i32` wrapping semantics). -/
def ivecMul (a b : Int × Int) : Int × Int := (i32mul a.1 b.1, i32mul a.2 b.2)

/-- Component-wise `IVec2` sum (`i32` wrapping semantics). -/
def ivecAdd (a b : Int × Int) : Int × Int := (i32add a.1 b.1, i32add a.2 b.2)

/-- Component-wise `IVec2` difference (`i32` wrapping semantics). -/
def ivecSub (a b : Int × Int) : Int × Int := (i32sub a.1 b.1, i32sub a.2 b.2)

/-- The place-mode body of `State::update` (main.rs lines 413-458): the cursor
delta is projected onto the X axis when `delta.x.abs() > delta.y.abs()` and
onto the Y axis otherwise, and `end_position` becomes `start_position + size`.
All `IVec2` arithmetic, including `abs`, is `i32` arithmetic with wrapping
semantics. -/
def placeUpdate (st : PlaceState) (cursor_tile : Int × Int) : PlaceState :=
  let delta := ivecSub cursor_tile st.start_position
  let size :=
    if i32abs delta.1 > i32abs delta.2 then ivecMul delta IVec2_X
    else ivecMul delta IVec2_Y
  { st with end_position := ivecAdd st.start_position size }

/- ══ helper lemmas: resolve and update ══ -/

open InstanceManager

variable {α : Type}

lemma resolve_eq_some {m : InstanceManager α} {h : Handle} {i : Nat}
    (hr : m.resolve h = some i) :
    ∃ s : Slot, m.slots[h.slot_index]? = some s ∧ s.state = SlotState.Occupied ∧
      s.generation = h.generation ∧ s.packed_index = i := by
  cases hs : m.slots[h.slot_index]? with
  | none =>
      simp only [InstanceManager.resolve, hs] at hr
      exact absurd hr (by simp)
  | some s =>
      simp only [InstanceManager.resolve, hs] at hr
      split at hr
      · next hc => exact ⟨s, rfl, hc.1, hc.2, by injection hr⟩
      · next hc => exact absurd hr (by simp)

lemma resolve_of_slot {m : InstanceManager α} {h : Handle} {s : Slot}
    (hs : m.slots[h.slot_index]? = some s) (ho : s.state = SlotState.Occupied)
    (hg : s.generation = h.generation) :
    m.resolve h = some s.packed_index := by
  unfold InstanceManager.resolve
  rw [hs]
  simp [ho, hg]

lemma resolve_isSome_iff {m : InstanceManager α} {h : Handle} :
    (m.resolve h).isSome ↔ validHandle m h := by
  constructor
  · intro hi
    obtain ⟨i, hr⟩ := Option.isSome_iff_exists.mp hi
    obtain ⟨s, hs, ho, hg, _⟩ := resolve_eq_some hr
    exact ⟨s, hs, ho, hg⟩
  · rintro ⟨s, hs, ho, hg⟩
    rw [resolve_of_slot hs ho hg]
    rfl

lemma resolve_ne_none_of_valid {m : InstanceManager α} {h : Handle}
    (hv : validHandle m h) : m.resolve h ≠ none := by
  intro hn
  have := resolve_isSome_iff.mpr hv
  rw [hn] at this
  exact absurd this (by simp)

lemma update_of_stale {m : InstanceManager α} {h : Handle} (r : α)
    (hr : m.resolve h = none) : m.update h r = m := by
  unfold InstanceManager.update
  rw [hr]

lemma update_slots (m : InstanceManager α) (h : Handle) (r : α) :
    (m.update h r).slots = m.slots := by
  unfold InstanceManager.update
  split
  · rfl
  · split <;> rfl

lemma update_free_list (m : InstanceManager α) (h : Handle) (r : α) :
    (m.update h r).free_list = m.free_list := by
  unfold InstanceManager.update
  split
  · rfl
  · split <;> rfl

lemma update_len (m : InstanceManager α) (h : Handle) (r : α) :
    (m.update h r).len = m.len := by
  unfold InstanceManager.update InstanceManager.len
  split
  · rfl
  · split
    · simp
    · rfl

lemma update_resolve (m : InstanceManager α) (h h' : Handle) (r : α) :
    (m.update h r).resolve h' = m.resolve h' := by
  unfold InstanceManager.resolve
  rw [update_slots]

lemma wf_resolve_record {m : InstanceManager α} {h : Handle} {i : Nat}
    (hw : WF m) (hr : m.resolve h = some i) :
    ∃ rec : PackedRecord α, m.packed[i]? = some rec ∧ rec.owner_slot = h.slot_index := by
  obtain ⟨s, hs, ho, _, hi⟩ := resolve_eq_some hr
  obtain ⟨rec, hrec, hown⟩ := hw.slot_fwd _ _ hs ho
  rw [hi] at hrec
  exact ⟨rec, hrec, hown⟩

lemma update_eq {m : InstanceManager α} {h : Handle} {i : Nat} {old : PackedRecord α}
    (hr : m.resolve h = some i) (hp : m.packed[i]? = some old) (r : α) :
    m.update h r = { m with packed := m.packed.set i ⟨r, old.owner_slot⟩ } := by
  simp only [InstanceManager.update, hr, hp]

lemma update_read {m : InstanceManager α} {h : Handle} {i : Nat}
    (hw : WF m) (hr : m.resolve h = some i) (r : α) :
    (m.update h r).packed[i]? = some ⟨r, h.slot_index⟩ := by
  obtain ⟨old, hp, hown⟩ := wf_resolve_record hw hr
  rw [update_eq hr hp r, hown]
  exact List.getElem?_set_eq_of_lt _ (List.getElem?_eq_some.mp hp).1

lemma update_read_other {m : InstanceManager α} {h : Handle} {i j : Nat}
    (hr : m.resolve h = some i) (r : α) (hj : j ≠ i) :
    (m.update h r).packed[j]? = m.packed[j]? := by
  cases hp : m.packed[i]? with
  | none => simp only [InstanceManager.update, hr, hp]
  | some old =>
      simp only [InstanceManager.update, hr, hp]
      exact List.getElem?_set_ne (Ne.symm hj)

lemma wf_update (m : InstanceManager α) (h : Handle) (r : α)
    (hw : WF m) : WF (m.update h r) := by
  cases hr : m.resolve h with
  | none => rw [update_of_stale r hr]; exact hw
  | some i =>
      cases hp : m.packed[i]? with
      | none =>
          have hmm : m.update h r = m := by
            simp only [InstanceManager.update, hr, hp]
          rw [hmm]
          exact hw
      | some old =>
          rw [update_eq hr hp r]
          have hlt : i < m.packed.length := (List.getElem?_eq_some.mp hp).1
          constructor
          · intro i' r' hr'
            by_cases hii : i' = i
            · rw [hii, List.getElem?_set_eq_of_lt _ hlt] at hr'
              obtain ⟨s, hs, ho, hidx⟩ := hw.owner_back _ old hp
              injection hr' with hre
              rw [← hre]
              exact ⟨s, hs, ho, by rw [hidx, hii]⟩
            · rw [List.getElem?_set_ne (Ne.symm hii)] at hr'
              exact hw.owner_back i' r' hr'
          · intro j s hs ho
            obtain ⟨r0, hr0, hown0⟩ := hw.slot_fwd j s hs ho
            by_cases hii : s.packed_index = i
            · rw [hii]
              rw [hii, hp] at hr0
              injection hr0 with hre
              rw [← hre] at hown0
              exact ⟨⟨r, old.owner_slot⟩, List.getElem?_set_eq_of_lt _ hlt, hown0⟩
            · rw [List.getElem?_set_ne (fun he => hii he.symm)]
              exact ⟨r0, hr0, hown0⟩
          · exact hw.free_mem
          · exact hw.free_nodup

/- ══ helper lemmas: insert ══ -/

lemma insert_eq_fresh {m : InstanceManager α} (hf : m.free_list = []) (r : α) :
    m.insert r =
      ({ m with
          slots := m.slots ++ [⟨SlotState.Occupied, 0, m.packed.length⟩],
          packed := m.packed ++ [⟨r, m.slots.length⟩] },
       ⟨m.slots.length, 0⟩) := by
  simp only [InstanceManager.insert, hf]

lemma insert_eq_recycle {m : InstanceManager α} {j : Nat} {rest : List Nat} {s : Slot}
    (hf : m.free_list = j :: rest) (hs : m.slots[j]? = some s) (r : α) :
    m.insert r =
      ({ m with
          slots := m.slots.set j ⟨SlotState.Occupied, s.generation, m.packed.length⟩,
          free_list := rest,
          packed := m.packed ++ [⟨r, j⟩] },
       ⟨j, s.generation⟩) := by
  simp only [InstanceManager.insert, hf, hs]

lemma wf_insert (m : InstanceManager α) (r : α) (hw : WF m) : WF (m.insert r).1 := by
  cases hf : m.free_list with
  | nil =>
      rw [insert_eq_fresh hf r]
      constructor
      · intro i r' hi
        have hlen : i < m.packed.length + 1 := by
          have := (List.getElem?_eq_some.mp hi).1
          simpa using this
        rcases Nat.lt_or_ge i m.packed.length with hlt | hge
        · rw [List.getElem?_append_left hlt] at hi
          obtain ⟨s, hss, ho, hidx⟩ := hw.owner_back i r' hi
          have hjlt : r'.owner_slot < m.slots.length := (List.getElem?_eq_some.mp hss).1
          exact ⟨s, by rw [List.getElem?_append_left hjlt]; exact hss, ho, hidx⟩
        · have hieq : i = m.packed.length := by omega
          rw [hieq, List.getElem?_concat_length] at hi
          injection hi with hre
          rw [← hre]
          exact ⟨⟨SlotState.Occupied, 0, m.packed.length⟩,
            by rw [List.getElem?_concat_length], rfl, by rw [hieq]⟩
      · intro j s hs ho
        have hlen : j < m.slots.length + 1 := by
          have := (List.getElem?_eq_some.mp hs).1
          simpa using this
        rcases Nat.lt_or_ge j m.slots.length with hlt | hge
        · rw [List.getElem?_append_left hlt] at hs
          obtain ⟨r0, hr0, hown⟩ := hw.slot_fwd j s hs ho
          have hidx : s.packed_index < m.packed.length := (List.getElem?_eq_some.mp hr0).1
          exact ⟨r0, by rw [List.getElem?_append_left hidx]; exact hr0, hown⟩
        · have hjeq : j = m.slots.length := by omega
          rw [hjeq, List.getElem?_concat_length] at hs
          injection hs with hre
          rw [← hre]
          exact ⟨⟨r, m.slots.length⟩, by rw [List.getElem?_concat_length], by rw [hjeq]⟩
      · intro j hj
        rw [hf] at hj
        exact absurd hj (by simp)
      · rw [hf]
        exact List.nodup_nil
  | cons j rest =>
      obtain ⟨s, hs, hfree⟩ := hw.free_mem j (by rw [hf]; exact List.mem_cons_self j rest)
      rw [insert_eq_recycle hf hs r]
      have hjlt : j < m.slots.length := (List.getElem?_eq_some.mp hs).1
      constructor
      · intro i r' hi
        have hlen : i < m.packed.length + 1 := by
          have := (List.getElem?_eq_some.mp hi).1
          simpa using this
        rcases Nat.lt_or_ge i m.packed.length with hlt | hge
        · rw [List.getElem?_append_left hlt] at hi
          obtain ⟨s0, hss, ho, hidx⟩ := hw.owner_back i r' hi
          have hne : r'.owner_slot ≠ j := by
            intro he
            rw [he, hs] at hss
            injection hss with hre
            rw [hre] at hfree
            rw [hfree] at ho
            exact absurd ho (by simp)
          exact ⟨s0, by rw [List.getElem?_set_ne (Ne.symm hne)]; exact hss, ho, hidx⟩
        · have hieq : i = m.packed.length := by omega
          rw [hieq, List.getElem?_concat_length] at hi
          injection hi with hre
          rw [← hre]
          exact ⟨⟨SlotState.Occupied, s.generation, m.packed.length⟩,
            by rw [List.getElem?_set_eq_of_lt _ hjlt], rfl, by rw [hieq]⟩
      · intro j' s' hs' ho'
        by_cases hjj : j' = j
        · rw [hjj, List.getElem?_set_eq_of_lt _ hjlt] at hs'
          injection hs' with hre
          rw [← hre]
          exact ⟨⟨r, j⟩, by rw [List.getElem?_concat_length], by rw [hjj]⟩
        · rw [List.getElem?_set_ne (fun he => hjj he.symm)] at hs'
          obtain ⟨r0, hr0, hown⟩ := hw.slot_fwd j' s' hs' ho'
          have hidx : s'.packed_index < m.packed.length := (List.getElem?_eq_some.mp hr0).1
          exact ⟨r0, by rw [List.getElem?_append_left hidx]; exact hr0, hown⟩
      · intro j' hj'
        have hmem : j' ∈ m.free_list := by rw [hf]; exact List.mem_cons_of_mem j hj'
        obtain ⟨s', hs', hfree'⟩ := hw.free_mem j' hmem
        have hne : j' ≠ j := by
          intro he
          have hnd := hw.free_nodup
          rw [hf] at hnd
          exact (List.nodup_cons.mp hnd).1 (he ▸ hj')
        exact ⟨s', by rw [List.getElem?_set_ne (Ne.symm hne)]; exact hs', hfree'⟩
      · have hnd := hw.free_nodup
        rw [hf] at hnd
        exact (List.nodup_cons.mp hnd).2

/- ══ helper lemmas: remove ══ -/

lemma wf_occupied_idx_inj {m : InstanceManager α} (hw : WF m) {j1 j2 : Nat} {s1 s2 : Slot}
    (h1 : m.slots[j1]? = some s1) (o1 : s1.state = SlotState.Occupied)
    (h2 : m.slots[j2]? = some s2) (o2 : s2.state = SlotState.Occupied)
    (he : s1.packed_index = s2.packed_index) : j1 = j2 := by
  obtain ⟨r1, hr1, hw1⟩ := hw.slot_fwd _ _ h1 o1
  obtain ⟨r2, hr2, hw2⟩ := hw.slot_fwd _ _ h2 o2
  rw [he, hr2] at hr1
  injection hr1 with hre
  rw [← hw1, ← hw2, hre]

lemma wf_occupied_not_free {m : InstanceManager α} (hw : WF m) {j : Nat} {s : Slot}
    (hs : m.slots[j]? = some s) (ho : s.state = SlotState.Occupied) :
    j ∉ m.free_list := by
  intro hmem
  obtain ⟨s', hs', hfree⟩ := hw.free_mem j hmem
  rw [hs] at hs'
  injection hs' with hre
  rw [← hre] at hfree
  rw [hfree] at ho
  exact absurd ho (by simp)

lemma remove_of_stale {m : InstanceManager α} {h : Handle}
    (hr : m.resolve h = none) : m.remove h = (m, false) := by
  cases hs : m.slots[h.slot_index]? with
  | none => simp only [InstanceManager.remove, hs]
  | some s =>
      simp only [InstanceManager.resolve, hs] at hr
      simp only [InstanceManager.remove, hs]
      split at hr
      · next hc => exact absurd hr (by simp)
      · next hc => rw [if_neg hc]

lemma remove_true_elim {m : InstanceManager α} {h : Handle}
    (ht : (m.remove h).2 = true) :
    ∃ s : Slot, m.slots[h.slot_index]? = some s ∧ s.state = SlotState.Occupied ∧
      s.generation = h.generation := by
  cases hs : m.slots[h.slot_index]? with
  | none =>
      rw [show m.remove h = (m, false) by simp only [InstanceManager.remove, hs]] at ht
      exact absurd ht (by simp)
  | some s =>
      by_cases hc : s.state = SlotState.Occupied ∧ s.generation = h.generation
      · exact ⟨s, rfl, hc.1, hc.2⟩
      · rw [show m.remove h = (m, false) by
          simp only [InstanceManager.remove, hs]; rw [if_neg hc]] at ht
        exact absurd ht (by simp)

lemma remove_eq_last {m : InstanceManager α} {h : Handle} {s : Slot}
    (hs : m.slots[h.slot_index]? = some s) (ho : s.state = SlotState.Occupied)
    (hg : s.generation = h.generation) (hlast : s.packed_index = m.packed.length - 1) :
    m.remove h =
      ({ m with
          slots := m.slots.set h.slot_index ⟨SlotState.Free, s.generation + 1, s.packed_index⟩,
          free_list := h.slot_index :: m.free_list,
          packed := m.packed.take (m.packed.length - 1) }, true) := by
  simp only [InstanceManager.remove, hs]
  rw [if_pos ⟨ho, hg⟩, if_pos hlast, if_pos hlast, hlast]

lemma remove_eq_swap {m : InstanceManager α} {h : Handle} {s : Slot}
    {rlast : PackedRecord α} {s2 : Slot}
    (hs : m.slots[h.slot_index]? = some s) (ho : s.state = SlotState.Occupied)
    (hg : s.generation = h.generation) (hnlast : s.packed_index ≠ m.packed.length - 1)
    (hrl : m.packed[m.packed.length - 1]? = some rlast)
    (hs2 : m.slots[rlast.owner_slot]? = some s2) :
    m.remove h =
      ({ m with
          slots := (m.slots.set rlast.owner_slot
              { s2 with packed_index := s.packed_index }).set h.slot_index
            ⟨SlotState.Free, s.generation + 1, s.packed_index⟩,
          free_list := h.slot_index :: m.free_list,
          packed := (m.packed.set s.packed_index rlast).take (m.packed.length - 1) },
       true) := by
  simp only [InstanceManager.remove, hs, hrl, hs2]
  rw [if_pos ⟨ho, hg⟩, if_neg hnlast, if_neg hnlast]

lemma wf_remove (m : InstanceManager α) (h : Handle) (hw : WF m) : WF (m.remove h).1 := by
  cases hr : m.resolve h with
  | none => rw [remove_of_stale hr]; exact hw
  | some i =>
      obtain ⟨s, hs, ho, hg, hi⟩ := resolve_eq_some hr
      obtain ⟨r0, hr0, hown0⟩ := hw.slot_fwd _ _ hs ho
      have hilt : s.packed_index < m.packed.length := (List.getElem?_eq_some.mp hr0).1
      have hjlt : h.slot_index < m.slots.length := (List.getElem?_eq_some.mp hs).1
      by_cases hlast : s.packed_index = m.packed.length - 1
      · rw [remove_eq_last hs ho hg hlast]
        dsimp only
        constructor
        · intro i' r' hi'
          have hi'lt : i' < m.packed.length - 1 := by
            have := (List.getElem?_eq_some.mp hi').1
            simp only [List.length_take] at this
            omega
          rw [List.getElem?_take_of_lt hi'lt] at hi'
          obtain ⟨s3, hs3, ho3, hidx3⟩ := hw.owner_back i' r' hi'
          have hne : r'.owner_slot ≠ h.slot_index := by
            intro he
            rw [he, hs] at hs3
            injection hs3 with hre
            rw [← hre] at hidx3
            omega
          exact ⟨s3, by rw [List.getElem?_set_ne (Ne.symm hne)]; exact hs3, ho3, hidx3⟩
        · intro j' s' hs' ho'
          by_cases hjj : j' = h.slot_index
          · rw [hjj, List.getElem?_set_eq_of_lt _ hjlt] at hs'
            injection hs' with hre
            rw [← hre] at ho'
            exact absurd ho' (by simp)
          · rw [List.getElem?_set_ne (fun he => hjj he.symm)] at hs'
            obtain ⟨r3, hr3, hown3⟩ := hw.slot_fwd j' s' hs' ho'
            have hne : s'.packed_index ≠ s.packed_index :=
              fun he => hjj (wf_occupied_idx_inj hw hs' ho' hs ho he)
            have hlt3 : s'.packed_index < m.packed.length :=
              (List.getElem?_eq_some.mp hr3).1
            have hlt3' : s'.packed_index < m.packed.length - 1 := by omega
            exact ⟨r3, by rw [List.getElem?_take_of_lt hlt3']; exact hr3, hown3⟩
        · intro j'' hj''
          rcases List.mem_cons.mp hj'' with he | hmem
          · refine ⟨⟨SlotState.Free, s.generation + 1, s.packed_index⟩, ?_, rfl⟩
            rw [he, List.getElem?_set_eq_of_lt _ hjlt]
          · obtain ⟨s'', hs'', hfree''⟩ := hw.free_mem j'' hmem
            have hne : j'' ≠ h.slot_index := by
              intro he
              rw [he, hs] at hs''
              injection hs'' with hre
              rw [← hre] at hfree''
              rw [hfree''] at ho
              exact absurd ho (by simp)
            exact ⟨s'', by rw [List.getElem?_set_ne (Ne.symm hne)]; exact hs'', hfree''⟩
        · exact List.nodup_cons.mpr ⟨wf_occupied_not_free hw hs ho, hw.free_nodup⟩
      · have hn1 : m.packed.length - 1 < m.packed.length := by omega
        obtain ⟨rlast, hrl⟩ : ∃ rl, m.packed[m.packed.length - 1]? = some rl := by
          rw [List.getElem?_eq_getElem hn1]; exact ⟨_, rfl⟩
        obtain ⟨s2, hs2, ho2, hidx2⟩ := hw.owner_back _ rlast hrl
        have hone : rlast.owner_slot ≠ h.slot_index := by
          intro he
          rw [he, hs] at hs2
          injection hs2 with hre
          rw [← hre] at hidx2
          exact hlast hidx2
        have ho2lt : rlast.owner_slot < m.slots.length := (List.getElem?_eq_some.mp hs2).1
        have hjlt2 : h.slot_index <
            (m.slots.set rlast.owner_slot { s2 with packed_index := s.packed_index }).length := by
          rw [List.length_set]
          exact hjlt
        rw [remove_eq_swap hs ho hg hlast hrl hs2]
        dsimp only
        have hplen : ((m.packed.set s.packed_index rlast).take (m.packed.length - 1)).length
            = m.packed.length - 1 := by
          simp [List.length_take]
        constructor
        · intro i' r' hi'
          have hi'lt : i' < m.packed.length - 1 := by
            have := (List.getElem?_eq_some.mp hi').1
            rw [hplen] at this
            exact this
          rw [List.getElem?_take_of_lt hi'lt] at hi'
          by_cases hii : i' = s.packed_index
          · rw [hii, List.getElem?_set_eq_of_lt _ hilt] at hi'
            injection hi' with hre
            rw [← hre]
            refine ⟨{ s2 with packed_index := s.packed_index }, ?_, ho2, hii.symm⟩
            rw [List.getElem?_set_ne (Ne.symm hone), List.getElem?_set_eq_of_lt _ ho2lt]
          · rw [List.getElem?_set_ne (Ne.symm hii)] at hi'
            obtain ⟨s3, hs3, ho3, hidx3⟩ := hw.owner_back i' r' hi'
            have hne1 : r'.owner_slot ≠ h.slot_index := by
              intro he
              rw [he, hs] at hs3
              injection hs3 with hre
              rw [← hre] at hidx3
              exact hii hidx3.symm
            have hne2 : r'.owner_slot ≠ rlast.owner_slot := by
              intro he
              rw [he, hs2] at hs3
              injection hs3 with hre
              rw [← hre] at hidx3
              omega
            refine ⟨s3, ?_, ho3, hidx3⟩
            rw [List.getElem?_set_ne (Ne.symm hne1), List.getElem?_set_ne (Ne.symm hne2)]
            exact hs3
        · intro j' s' hs' ho'
          by_cases hjj : j' = h.slot_index
          · rw [hjj, List.getElem?_set_eq_of_lt _ hjlt2] at hs'
            injection hs' with hre
            rw [← hre] at ho'
            exact absurd ho' (by simp)
          · rw [List.getElem?_set_ne (fun he => hjj he.symm)] at hs'
            by_cases hjo : j' = rlast.owner_slot
            · rw [hjo, List.getElem?_set_eq_of_lt _ ho2lt] at hs'
              injection hs' with hre
              rw [← hre]
              refine ⟨rlast, ?_, hjo.symm⟩
              have hilt' : s.packed_index < m.packed.length - 1 := by omega
              dsimp only
              rw [List.getElem?_take_of_lt hilt', List.getElem?_set_eq_of_lt _ hilt]
            · rw [List.getElem?_set_ne (fun he => hjo he.symm)] at hs'
              obtain ⟨r3, hr3, hown3⟩ := hw.slot_fwd j' s' hs' ho'
              have hne : s'.packed_index ≠ s.packed_index :=
                fun he => hjj (wf_occupied_idx_inj hw hs' ho' hs ho he)
              have hnel : s'.packed_index ≠ m.packed.length - 1 := by
                intro he
                rw [he, hrl] at hr3
                injection hr3 with hre
                rw [hre] at hjo
                exact hjo hown3.symm
              have hlt3 : s'.packed_index < m.packed.length :=
                (List.getElem?_eq_some.mp hr3).1
              have hlt3' : s'.packed_index < m.packed.length - 1 := by omega
              refine ⟨r3, ?_, hown3⟩
              rw [List.getElem?_take_of_lt hlt3', List.getElem?_set_ne (Ne.symm hne)]
              exact hr3
        · intro j'' hj''
          rcases List.mem_cons.mp hj'' with he | hmem
          · refine ⟨⟨SlotState.Free, s.generation + 1, s.packed_index⟩, ?_, rfl⟩
            rw [he, List.getElem?_set_eq_of_lt _ hjlt2]
          · obtain ⟨s'', hs'', hfree''⟩ := hw.free_mem j'' hmem
            have hne1 : j'' ≠ h.slot_index := by
              intro he
              rw [he, hs] at hs''
              injection hs'' with hre
              rw [← hre] at hfree''
              rw [hfree''] at ho
              exact absurd ho (by simp)
            have hne2 : j'' ≠ rlast.owner_slot := by
              intro he
              rw [he, hs2] at hs''
              injection hs'' with hre
              rw [← hre] at hfree''
              rw [hfree''] at ho2
              exact absurd ho2 (by simp)
            refine ⟨s'', ?_, hfree''⟩
            rw [List.getElem?_set_ne (Ne.symm hne1), List.getElem?_set_ne (Ne.symm hne2)]
            exact hs''
        · exact List.nodup_cons.mpr ⟨wf_occupied_not_free hw hs ho, hw.free_nodup⟩

lemma remove_slots_freed {m : InstanceManager α} {h : Handle} {s : Slot}
    (hs : m.slots[h.slot_index]? = some s)
    (hc : s.state = SlotState.Occupied ∧ s.generation = h.generation) :
    (m.remove h).1.slots[h.slot_index]? =
      some ⟨SlotState.Free, s.generation + 1, s.packed_index⟩ := by
  have hjlt : h.slot_index < m.slots.length := (List.getElem?_eq_some.mp hs).1
  simp only [InstanceManager.remove, hs]
  rw [if_pos hc]
  dsimp only
  split
  · exact List.getElem?_set_eq_of_lt _ hjlt
  · split
    · split
      · refine List.getElem?_set_eq_of_lt _ ?_
        rw [List.length_set]
        exact hjlt
      · exact List.getElem?_set_eq_of_lt _ hjlt
    · exact List.getElem?_set_eq_of_lt _ hjlt

lemma resolve_after_remove {m : InstanceManager α} {h : Handle}
    (ht : (m.remove h).2 = true) : (m.remove h).1.resolve h = none := by
  obtain ⟨s, hs, ho, hg⟩ := remove_true_elim ht
  have hfreed := remove_slots_freed hs ⟨ho, hg⟩
  simp only [InstanceManager.resolve, hfreed]
  rw [if_neg]
  intro hcon
  exact absurd hcon.1 (by simp)

lemma remove_slots_other {m : InstanceManager α} {h : Handle} {s : Slot}
    (hs : m.slots[h.slot_index]? = some s)
    (hc : s.state = SlotState.Occupied ∧ s.generation = h.generation)
    {j' : Nat} (hne : j' ≠ h.slot_index) :
    (m.remove h).1.slots[j']? = m.slots[j']? ∨
      ∃ s2 : Slot, m.slots[j']? = some s2 ∧
        (m.remove h).1.slots[j']? = some { s2 with packed_index := s.packed_index } := by
  simp only [InstanceManager.remove, hs]
  rw [if_pos hc]
  dsimp only
  rw [List.getElem?_set_ne (Ne.symm hne)]
  split
  · left; rfl
  · split
    · next r heq =>
        split
        · next s2 heq2 =>
            by_cases hjo : j' = r.owner_slot
            · right
              refine ⟨s2, by rw [hjo]; exact heq2, ?_⟩
              rw [hjo]
              exact List.getElem?_set_eq_of_lt _ (List.getElem?_eq_some.mp heq2).1
            · left
              rw [List.getElem?_set_ne (fun he => hjo he.symm)]
        · left; rfl
    · left; rfl

/- ══ helper lemmas: issued handles and reachable states ══ -/

lemma issued_update {m : InstanceManager α} {hs : List Handle}
    (hI : IssuedOk m hs) (h : Handle) (r : α) : IssuedOk (m.update h r) hs := by
  intro h' hmem
  obtain ⟨s', hss, hle, hfr⟩ := hI h' hmem
  rw [update_slots]
  exact ⟨s', hss, hle, hfr⟩

lemma issued_remove {m : InstanceManager α} {hs : List Handle}
    (hI : IssuedOk m hs) (h : Handle) : IssuedOk (m.remove h).1 hs := by
  intro h' hmem
  obtain ⟨s', hss, hle, hfr⟩ := hI h' hmem
  cases hsj : m.slots[h.slot_index]? with
  | none =>
      rw [show m.remove h = (m, false) by simp only [InstanceManager.remove, hsj]]
      exact ⟨s', hss, hle, hfr⟩
  | some s =>
      by_cases hc : s.state = SlotState.Occupied ∧ s.generation = h.generation
      · by_cases hjj : h'.slot_index = h.slot_index
        · refine ⟨⟨SlotState.Free, s.generation + 1, s.packed_index⟩, ?_, ?_, ?_⟩
          · rw [hjj]
            exact remove_slots_freed hsj hc
          · rw [hjj, hsj] at hss
            injection hss with hre
            rw [← hre] at hle
            show h'.generation ≤ s.generation + 1
            omega
          · intro _
            rw [hjj, hsj] at hss
            injection hss with hre
            rw [← hre] at hle
            show h'.generation < s.generation + 1
            omega
        · rcases remove_slots_other hsj hc hjj with heq | ⟨s2, hs2, heq⟩
          · rw [heq]
            exact ⟨s', hss, hle, hfr⟩
          · rw [heq]
            rw [hs2] at hss
            injection hss with hre
            rw [← hre] at hle hfr
            exact ⟨_, rfl, hle, hfr⟩
      · rw [show m.remove h = (m, false) by
          simp only [InstanceManager.remove, hsj]; rw [if_neg hc]]
        exact ⟨s', hss, hle, hfr⟩

lemma issued_insert {m : InstanceManager α} {hs : List Handle} (hw : WF m)
    (hI : IssuedOk m hs) (r : α) :
    IssuedOk (m.insert r).1 (hs ++ [(m.insert r).2]) ∧ ∀ h ∈ hs, h ≠ (m.insert r).2 := by
  cases hf : m.free_list with
  | nil =>
      rw [insert_eq_fresh hf r]
      dsimp only
      constructor
      · intro h hmem
        rcases List.mem_append.mp hmem with hmem | hmem
        · obtain ⟨s, hss, hle, hfr⟩ := hI h hmem
          have hlt : h.slot_index < m.slots.length := (List.getElem?_eq_some.mp hss).1
          exact ⟨s, by rw [List.getElem?_append_left hlt]; exact hss, hle, hfr⟩
        · have heq : h = ⟨m.slots.length, 0⟩ := by simpa using hmem
          subst heq
          refine ⟨⟨SlotState.Occupied, 0, m.packed.length⟩, ?_, Nat.le_refl 0, ?_⟩
          · exact List.getElem?_concat_length _ _
          · intro hcon
            exact absurd hcon (by simp)
      · intro h hmem heq
        obtain ⟨s, hss, _, _⟩ := hI h hmem
        have hlt : h.slot_index < m.slots.length := (List.getElem?_eq_some.mp hss).1
        rw [heq] at hlt
        dsimp only at hlt
        omega
  | cons j rest =>
      obtain ⟨s, hsj, hfree⟩ := hw.free_mem j (by rw [hf]; exact List.mem_cons_self j rest)
      have hjlt : j < m.slots.length := (List.getElem?_eq_some.mp hsj).1
      rw [insert_eq_recycle hf hsj r]
      dsimp only
      constructor
      · intro h hmem
        rcases List.mem_append.mp hmem with hmem | hmem
        · obtain ⟨s', hss, hle, hfr⟩ := hI h hmem
          by_cases hjj : h.slot_index = j
          · rw [hjj, hsj] at hss
            injection hss with hre
            rw [← hre] at hle hfr
            refine ⟨⟨SlotState.Occupied, s.generation, m.packed.length⟩, ?_, hle, ?_⟩
            · rw [hjj]
              exact List.getElem?_set_eq_of_lt _ hjlt
            · intro hcon
              exact absurd hcon (by simp)
          · refine ⟨s', ?_, hle, hfr⟩
            rw [List.getElem?_set_ne (fun he => hjj he.symm)]
            exact hss
        · have heq : h = ⟨j, s.generation⟩ := by simpa using hmem
          subst heq
          refine ⟨⟨SlotState.Occupied, s.generation, m.packed.length⟩, ?_, Nat.le_refl _, ?_⟩
          · exact List.getElem?_set_eq_of_lt _ hjlt
          · intro hcon
            exact absurd hcon (by simp)
      · intro h hmem heq
        obtain ⟨s', hss, hle, hfr⟩ := hI h hmem
        subst heq
        dsimp only at hss hle hfr
        rw [hsj] at hss
        injection hss with hre
        rw [← hre] at hfr
        exact absurd (hfr hfree) (by omega)

/-- The combined invariant carried along an operation sequence: the state is
well-formed, every issued handle is pinned, and the issued handles are
pairwise distinct. -/
def StoreInv {α : Type} (p : InstanceManager α × List Handle) : Prop :=
  WF p.1 ∧ IssuedOk p.1 p.2 ∧ p.2.Pairwise (fun a b => a ≠ b)

lemma wf_empty (c : Nat) : WF (InstanceManager.empty (α := α) c) := by
  constructor
  · intro i r hi
    exact absurd hi (by simp [InstanceManager.empty])
  · intro j s hsj _
    exact absurd hsj (by simp [InstanceManager.empty])
  · intro j hj
    exact absurd hj (by simp [InstanceManager.empty])
  · simp [InstanceManager.empty]

lemma storeInv_applyOp {p : InstanceManager α × List Handle} (hp : StoreInv p) (op : Op α) :
    StoreInv ((applyOp p.1 op).1, p.2 ++ (applyOp p.1 op).2.toList) := by
  obtain ⟨hw, hI, hP⟩ := hp
  cases op with
  | insert r =>
      obtain ⟨hI', hne⟩ := issued_insert hw hI r
      refine ⟨wf_insert _ r hw, hI', ?_⟩
      rw [List.pairwise_append]
      refine ⟨hP, List.pairwise_singleton _ _, ?_⟩
      intro a ha b hb
      rw [applyOp] at hb
      rw [Option.toList_some, List.mem_singleton] at hb
      rw [hb]
      exact hne a ha
  | update h r =>
      simp only [applyOp, Option.toList_none, List.append_nil]
      exact ⟨wf_update _ h r hw, issued_update hI h r, hP⟩
  | remove h =>
      simp only [applyOp, Option.toList_none, List.append_nil]
      exact ⟨wf_remove _ h hw, issued_remove hI h, hP⟩

lemma storeInv_foldl (ops : List (Op α)) (p : InstanceManager α × List Handle)
    (hp : StoreInv p) :
    StoreInv (ops.foldl
      (fun acc op => ((applyOp acc.1 op).1, acc.2 ++ (applyOp acc.1 op).2.toList)) p) := by
  induction ops generalizing p with
  | nil => exact hp
  | cons op ops ih => exact ih _ (storeInv_applyOp hp op)

lemma storeInv_applyOpsH (c : Nat) (ops : List (Op α)) :
    StoreInv (applyOpsH c ops) := by
  refine storeInv_foldl ops _ ⟨wf_empty c, ?_, List.Pairwise.nil⟩
  intro h hmem
  exact absurd hmem (by simp)

lemma wf_resolve_inj {m : InstanceManager α} (hw : WF m) {h1 h2 : Handle} {i1 i2 : Nat}
    (hne : h1 ≠ h2) (hr1 : m.resolve h1 = some i1) (hr2 : m.resolve h2 = some i2) :
    i1 ≠ i2 := by
  obtain ⟨s1, hs1, ho1, hg1, hi1⟩ := resolve_eq_some hr1
  obtain ⟨s2, hs2, ho2, hg2, hi2⟩ := resolve_eq_some hr2
  intro he
  by_cases hjj : h1.slot_index = h2.slot_index
  · rw [hjj, hs2] at hs1
    injection hs1 with hre
    apply hne
    cases h1 with
    | mk a g1 =>
        cases h2 with
        | mk b g2 =>
            dsimp only at hjj hg1 hg2
            rw [← hre] at hg1
            rw [Handle.mk.injEq]
            exact ⟨hjj, hg1.symm.trans hg2⟩
  · exact hjj (wf_occupied_idx_inj hw hs1 ho1 hs2 ho2 (by rw [hi1, hi2, he]))

/- ══ helper lemmas: insert-only runs and the GPU mirror ══ -/

lemma purePacked_length (L : List α) (k : Nat) : (purePacked L k).length = L.length := by
  induction L generalizing k with
  | nil => rfl
  | cons a l ih => simp [purePacked, ih]

lemma purePacked_map_data (L : List α) (k : Nat) :
    (purePacked L k).map (fun r => r.data) = L := by
  induction L generalizing k with
  | nil => rfl
  | cons a l ih => simp [purePacked, ih]

lemma purePacked_append (L1 L2 : List α) (k : Nat) :
    purePacked (L1 ++ L2) k = purePacked L1 k ++ purePacked L2 (k + L1.length) := by
  induction L1 generalizing k with
  | nil => simp [purePacked]
  | cons a l ih =>
      have he : k + 1 + l.length = k + (l.length + 1) := by omega
      simp [purePacked, ih, he]

lemma purePacked_get (L : List α) (k j : Nat) :
    (purePacked L k)[j]? = L[j]?.map (fun a => ⟨a, k + j⟩) := by
  induction L generalizing k j with
  | nil => simp [purePacked]
  | cons a l ih =>
      cases j with
      | zero => simp [purePacked]
      | succ j' =>
          have he : k + 1 + j' = k + (j' + 1) := by omega
          simp [purePacked, ih, he]

lemma pureSlots_length (n : Nat) : (pureSlots n).length = n := by
  simp [pureSlots]

lemma pureSlots_succ (n : Nat) :
    pureSlots (n + 1) = pureSlots n ++ [⟨SlotState.Occupied, 0, n⟩] := by
  unfold pureSlots
  rw [List.range_succ, List.map_append]
  rfl

lemma pureSlots_get (n j : Nat) (hj : j < n) :
    (pureSlots n)[j]? = some ⟨SlotState.Occupied, 0, j⟩ := by
  unfold pureSlots
  rw [List.getElem?_map, List.getElem?_range hj]
  rfl

lemma insert_pureState (c : Nat) (L0 : List α) (a : α) :
    (pureState c L0).insert a = (pureState c (L0 ++ [a]), ⟨L0.length, 0⟩) := by
  rw [show (pureState c L0).insert a =
      ({ pureState c L0 with
          slots := (pureState c L0).slots ++
            [⟨SlotState.Occupied, 0, (pureState c L0).packed.length⟩],
          packed := (pureState c L0).packed ++ [⟨a, (pureState c L0).slots.length⟩] },
       ⟨(pureState c L0).slots.length, 0⟩) from insert_eq_fresh rfl a]
  unfold pureState
  dsimp only
  rw [purePacked_length, pureSlots_length, List.length_append]
  rw [purePacked_append, Nat.zero_add]
  rw [show pureSlots (L0.length + List.length [a]) = pureSlots (L0.length + 1) by rfl]
  rw [pureSlots_succ]
  rfl

lemma applyOpsH_inserts (c : Nat) (L : List α) (L0 : List α) (hs0 : List Handle) :
    (L.map Op.insert).foldl
      (fun acc op => ((applyOp acc.1 op).1, acc.2 ++ (applyOp acc.1 op).2.toList))
      (pureState c L0, hs0)
    = (pureState c (L0 ++ L),
       hs0 ++ (List.range L.length).map (fun k => ⟨L0.length + k, 0⟩)) := by
  induction L generalizing L0 hs0 with
  | nil => simp
  | cons a l ih =>
      simp only [List.map_cons, List.foldl_cons]
      have hstep : applyOp (pureState c L0) (Op.insert a)
          = (pureState c (L0 ++ [a]), some ⟨L0.length, 0⟩) := by
        simp only [applyOp, insert_pureState]
      rw [hstep]
      dsimp only
      rw [show hs0 ++ (some (⟨L0.length, 0⟩ : Handle)).toList = hs0 ++ [⟨L0.length, 0⟩]
        from rfl]
      rw [ih (L0 ++ [a]) (hs0 ++ [Handle.mk L0.length 0])]
      refine Prod.ext ?_ ?_
      · dsimp only
        rw [List.append_assoc]
        rfl
      · dsimp only
        rw [List.append_assoc]
        congr 1
        simp only [List.length_cons]
        rw [List.range_succ_eq_map, List.map_cons, List.map_map, List.singleton_append]
        congr 1
        apply List.map_congr_left
        intro k _
        simp only [Function.comp, List.length_append, List.length_singleton]
        rw [Handle.mk.injEq]
        omega

lemma applyOpsH_insert_run (c : Nat) (L : List α) :
    applyOpsH c (L.map Op.insert)
      = (pureState c L, (List.range L.length).map (fun k => ⟨k, 0⟩)) := by
  unfold applyOpsH
  rw [show (InstanceManager.empty (α := α) c, ([] : List Handle))
      = (pureState c ([] : List α), ([] : List Handle)) from rfl]
  rw [applyOpsH_inserts]
  simp

lemma pureState_resolve (c : Nat) (L : List α) (k : Nat) (hk : k < L.length) :
    (pureState c L).resolve ⟨k, 0⟩ = some k := by
  have hs : (pureState c L).slots[(⟨k, 0⟩ : Handle).slot_index]?
      = some ⟨SlotState.Occupied, 0, k⟩ := pureSlots_get L.length k hk
  exact resolve_of_slot hs rfl rfl

lemma pureState_read (c : Nat) (L : List α) (k : Nat) :
    ((pureState c L).packed[k]?).map (fun r => r.data) = L[k]? := by
  show ((purePacked L 0)[k]?).map (fun r => r.data) = L[k]?
  rw [purePacked_get]
  cases L[k]? <;> rfl

lemma buffer_none_iff (m : InstanceManager α) : (m.buffer).2 = none ↔ m.len = 0 := by
  unfold InstanceManager.buffer InstanceManager.len
  by_cases hz : m.packed.length = 0
  · simp [hz]
  · rw [if_neg hz]
    dsimp only
    constructor
    · intro hcon
      exact absurd hcon (by simp)
    · intro hl
      exact absurd hl hz

lemma buffer_some (m : InstanceManager α) (hne : m.packed.length ≠ 0) :
    (m.buffer).2 = some (m.packed.map (fun r => r.data)) := by
  unfold InstanceManager.buffer
  rw [if_neg hne]
  dsimp only
  split <;> rfl

/- ══ helper lemmas: wire geometry ══ -/

lemma tdiv_center_symm (x y : Int) :
    x - Int.tdiv (|y - x| - (y - x)) 2 = y - Int.tdiv (|x - y| - (x - y)) 2 := by
  rcases le_or_lt x y with hxy | hxy
  · have h1 : |y - x| - (y - x) = 0 := by
      rw [abs_of_nonneg (by omega : (0 : Int) ≤ y - x)]
      ring
    have h2 : |x - y| - (x - y) = 2 * (y - x) := by
      rw [abs_of_nonpos (by omega : x - y ≤ 0)]
      ring
    rw [h1, h2, Int.zero_tdiv, Int.mul_tdiv_cancel_left _ (by decide : (2 : Int) ≠ 0)]
    ring
  · have h1 : |y - x| - (y - x) = 2 * (x - y) := by
      rw [abs_of_neg (by omega : y - x < 0)]
      ring
    have h2 : |x - y| - (x - y) = 0 := by
      rw [abs_of_pos (by omega : (0 : Int) < x - y)]
      ring
    rw [h1, h2, Int.zero_tdiv, Int.mul_tdiv_cancel_left _ (by decide : (2 : Int) ≠ 0)]
    ring

lemma toI32_eq_self {n : Int} (h : i32InRange n) : toI32 n = n := by
  obtain ⟨h1, h2⟩ := h
  unfold toI32
  omega

lemma i32mul_zero (x : Int) : i32mul x 0 = 0 := by
  unfold i32mul
  rw [mul_zero]
  decide

lemma i32mul_one (x : Int) : i32mul x 1 = toI32 x := by
  unfold i32mul
  rw [mul_one]

lemma i32add_zero (x : Int) : i32add x 0 = toI32 x := by
  unfold i32add
  rw [add_zero]

lemma i32_wire_abs {x y : Int} (hs : |y - x| ≤ 2 ^ 30 - 1) :
    i32abs (i32sub y x) = |y - x| := by
  have hnn := abs_nonneg (y - x)
  have hb := abs_le.mp hs
  have h1 : i32sub y x = y - x := toI32_eq_self ⟨by omega, by omega⟩
  unfold i32abs
  rw [h1]
  exact toI32_eq_self ⟨by omega, by omega⟩

lemma i32_wire_pos {x y : Int} (hx : i32InRange x) (hy : i32InRange y)
    (hs : |y - x| ≤ 2 ^ 30 - 1) :
    i32sub x (i32div (i32sub (i32abs (i32sub y x)) (i32sub y x)) 2)
      = x - Int.tdiv (|y - x| - (y - x)) 2 := by
  obtain ⟨hx1, hx2⟩ := hx
  have hb := abs_le.mp hs
  have h1 : i32sub y x = y - x := toI32_eq_self ⟨by omega, by omega⟩
  rw [i32_wire_abs hs, h1]
  rcases le_or_lt x y with hxy | hxy
  · have habs : |y - x| = y - x := abs_of_nonneg (by omega)
    rw [habs]
    rw [show i32sub (y - x) (y - x) = 0 by unfold i32sub; rw [sub_self]; decide]
    rw [show i32div 0 2 = 0 by decide]
    rw [show y - x - (y - x) = 0 by ring, Int.zero_tdiv, sub_zero]
    unfold i32sub
    rw [sub_zero]
    exact toI32_eq_self ⟨hx1, hx2⟩
  · obtain ⟨hy1, hy2⟩ := hy
    have habs : |y - x| = -(y - x) := abs_of_neg (by omega)
    rw [habs]
    have h2 : i32sub (-(y - x)) (y - x) = -(y - x) - (y - x) := by
      unfold i32sub
      exact toI32_eq_self ⟨by omega, by omega⟩
    rw [h2]
    rw [show -(y - x) - (y - x) = 2 * (x - y) by ring]
    have h4 : i32div (2 * (x - y)) 2 = x - y := by
      unfold i32div
      rw [Int.mul_tdiv_cancel_left _ (by decide : (2 : Int) ≠ 0)]
      exact toI32_eq_self ⟨by omega, by omega⟩
    rw [h4]
    rw [Int.mul_tdiv_cancel_left _ (by decide : (2 : Int) ≠ 0)]
    unfold i32sub
    rw [show x - (x - y) = y by ring]
    exact toI32_eq_self ⟨hy1, hy2⟩

/- ══ claim theorems ══ -/

/-- C1: for every state of the wire renderer's instance store, `buffer()`
returns `none` exactly when the live count is 0, and `WireRenderer.draw`
issues no render-pass command at all exactly in that case — in particular,
when `buffer()` is `none` the draw call is skipped entirely (no pipeline bind,
no vertex/index buffer bind, no indexed draw). -/
theorem C1_buffer_none_skips_draw (w : WireRenderer) :
    (((InstanceManager.buffer w.instances).2 = none) ↔ w.instances.len = 0) ∧
    ((w.draw).2 = [] ↔ w.instances.len = 0) := by
  refine ⟨buffer_none_iff _, ?_⟩
  unfold WireRenderer.draw
  rcases hbp : InstanceManager.buffer w.instances with ⟨m, b⟩
  have hb2 : (InstanceManager.buffer w.instances).2 = b := by rw [hbp]
  cases b with
  | none =>
      simp only [hbp]
      constructor
      · intro _
        exact (buffer_none_iff _).mp hb2
      · intro _
        trivial
  | some L =>
      simp only [hbp]
      constructor
      · intro hcon
        exact absurd hcon (by simp)
      · intro hz
        have hb := (buffer_none_iff w.instances).mpr hz
        rw [hb2] at hb
        exact absurd hb (by simp)

/-- C2: `remove` on a stale handle returns `false` and leaves the store
unchanged, and removal is idempotent: whenever a `remove` succeeds, removing
the same handle again returns `false` and leaves the state unchanged, so only
the first call reports success (the model is a total function, so no call can
panic).  This covers the caller pattern of `main.rs` lines 331-352, which
removes several handles in one cursor-release event. -/
theorem C2_remove_stale_and_idempotent (m : InstanceManager α) (h : Handle) :
    (m.resolve h = none → m.remove h = (m, false)) ∧
    ((m.remove h).2 = true → (m.remove h).1.remove h = ((m.remove h).1, false)) :=
  ⟨fun hr => remove_of_stale hr,
   fun ht => remove_of_stale (resolve_after_remove ht)⟩

/-- Witness for C2: removing a never-issued handle from an empty store returns
`false` with the store unchanged, and after insert-then-remove a second remove
of the same handle returns `false` with the state unchanged. -/
theorem C2_witness :
    ((InstanceManager.empty 3 : InstanceManager Nat).remove ⟨0, 0⟩
      = (InstanceManager.empty 3, false)) ∧
    ((((InstanceManager.empty 3 : InstanceManager Nat).insert 7).1.remove
          ((InstanceManager.empty 3 : InstanceManager Nat).insert 7).2).1.remove
        ((InstanceManager.empty 3 : InstanceManager Nat).insert 7).2
      = ((((InstanceManager.empty 3 : InstanceManager Nat).insert 7).1.remove
            ((InstanceManager.empty 3 : InstanceManager Nat).insert 7).2).1, false)) :=
  ⟨(C2_remove_stale_and_idempotent (InstanceManager.empty 3) ⟨0, 0⟩).1 (by decide),
   (C2_remove_stale_and_idempotent
      ((InstanceManager.empty 3 : InstanceManager Nat).insert 7).1
      ((InstanceManager.empty 3 : InstanceManager Nat).insert 7).2).2 (by decide)⟩

/-- C3: `update` on a stale handle is a no-op — the state, hence `len()` and
the `buffer()` contents, are unchanged; on a valid handle it overwrites the
packed record in place: the handle still resolves to the same packed index,
the length is unchanged, the record at that index now holds the new payload,
and every other packed position is untouched. -/
theorem C3_update_stale_noop_valid_in_place (m : InstanceManager α) (h : Handle) (r : α) :
    (m.resolve h = none →
      m.update h r = m ∧ (m.update h r).len = m.len ∧
        ((m.update h r).buffer).2 = (m.buffer).2) ∧
    (∀ i : Nat, WF m → m.resolve h = some i →
      (m.update h r).resolve h = some i ∧
      (m.update h r).len = m.len ∧
      ((m.update h r).packed[i]?).map (fun rec => rec.data) = some r ∧
      ∀ j : Nat, j ≠ i → (m.update h r).packed[j]? = m.packed[j]?) := by
  constructor
  · intro hr
    rw [update_of_stale r hr]
    exact ⟨rfl, rfl, rfl⟩
  · intro i hw hr
    refine ⟨?_, update_len m h r, ?_, ?_⟩
    · rw [update_resolve]
      exact hr
    · rw [update_read hw hr r]
      rfl
    · intro j hj
      exact update_read_other hr r hj

/-- Witness for C3: updating a never-issued handle on the empty store is a
no-op, and updating the handle just returned by an insert overwrites the
packed record in place. -/
theorem C3_witness :
    ((InstanceManager.empty 0 : InstanceManager Nat).update ⟨0, 0⟩ 9
      = InstanceManager.empty 0) ∧
    (((((InstanceManager.empty 0 : InstanceManager Nat).insert 5).1.update
          ((InstanceManager.empty 0 : InstanceManager Nat).insert 5).2 9).packed[0]?).map
        (fun rec => rec.data) = some 9) :=
  ⟨((C3_update_stale_noop_valid_in_place (InstanceManager.empty 0) ⟨0, 0⟩ 9).1
      (by decide)).1,
   ((C3_update_stale_noop_valid_in_place
        ((InstanceManager.empty 0 : InstanceManager Nat).insert 5).1
        ((InstanceManager.empty 0 : InstanceManager Nat).insert 5).2 9).2 0
      (wf_insert (InstanceManager.empty 0) 5 (wf_empty 0)) (by decide)).2.2.1⟩

/-- C4: write-then-read round trip — for a valid handle, `update(h, R)`
followed by reading back the record at `h`'s resolved packed position yields
exactly `R` (and the handle still resolves to that same position). -/
theorem C4_update_roundtrip (m : InstanceManager α) (h : Handle) (r : α) (i : Nat)
    (hw : WF m) (hr : m.resolve h = some i) :
    (m.update h r).resolve h = some i ∧
    ((m.update h r).packed[i]?).map (fun rec => rec.data) = some r := by
  refine ⟨?_, ?_⟩
  · rw [update_resolve]
    exact hr
  · rw [update_read hw hr r]
    rfl

/-- Witness for C4: the round trip at the handle returned by a single insert
into the empty store. -/
theorem C4_witness :
    ((((InstanceManager.empty 1 : InstanceManager Nat).insert 5).1.update
        ((InstanceManager.empty 1 : InstanceManager Nat).insert 5).2 42).packed[0]?).map
      (fun rec => rec.data) = some 42 :=
  (C4_update_roundtrip
    ((InstanceManager.empty 1 : InstanceManager Nat).insert 5).1
    ((InstanceManager.empty 1 : InstanceManager Nat).insert 5).2 42 0
    (wf_insert (InstanceManager.empty 1) 5 (wf_empty 1)) (by decide)).2

/-- C5: along every sequence of insert/update/remove operations from a fresh
store, the handles issued by the inserts are pairwise distinct (so no two
concurrently-live handles are ever equal); a handle is valid exactly when the
slot-table entry at its slot index is `Occupied` with a matching generation;
and two distinct valid handles never resolve to the same packed index. -/
theorem C5_handle_uniqueness (c : Nat) (ops : List (Op α)) :
    (applyOpsH c ops).2.Pairwise (fun h1 h2 => h1 ≠ h2) ∧
    (∀ h : Handle,
      ((applyOpsH c ops).1.resolve h).isSome ↔ validHandle (applyOpsH c ops).1 h) ∧
    (∀ h1 h2 : Handle, h1 ≠ h2 → ∀ i1 i2 : Nat,
      (applyOpsH c ops).1.resolve h1 = some i1 →
      (applyOpsH c ops).1.resolve h2 = some i2 → i1 ≠ i2) := by
  obtain ⟨hw, hI, hP⟩ := storeInv_applyOpsH c ops
  exact ⟨hP, fun h => resolve_isSome_iff,
    fun h1 h2 hne i1 i2 hr1 hr2 => wf_resolve_inj hw hne hr1 hr2⟩

/-- Witness for C5: after two inserts the two issued handles are distinct and
resolve to distinct packed indices. -/
theorem C5_witness :
    (applyOpsH (α := Nat) 2 [Op.insert 10, Op.insert 20]).2.Pairwise
      (fun h1 h2 => h1 ≠ h2) ∧ (0 : Nat) ≠ 1 :=
  ⟨(C5_handle_uniqueness 2 [Op.insert 10, Op.insert 20]).1,
   (C5_handle_uniqueness (α := Nat) 2 [Op.insert 10, Op.insert 20]).2.2
     ⟨0, 0⟩ ⟨1, 0⟩ (by decide) 0 1 (by decide) (by decide)⟩

/-- C6: the concrete swap-remove scenario — insert A, B, C into a fresh store
(`len()==3`); `remove(hB)` returns `true` and leaves `len()==2`; `hC` now
resolves to the packed position formerly occupied by B (index 1), showing the
swap-remove moved C into B's place; `buffer()` yields exactly the payloads
`[A, C]`; and a second `remove(hB)` returns `false` with the state unchanged. -/
theorem C6_swap_remove_scenario (c : Nat) (A B C : α) :
    ((((InstanceManager.empty c).insert A).1.insert B).1.insert C).1.len = 3 ∧
    (((((InstanceManager.empty c).insert A).1.insert B).1.insert C).1.remove
      (((InstanceManager.empty c).insert A).1.insert B).2).2 = true ∧
    (((((InstanceManager.empty c).insert A).1.insert B).1.insert C).1.remove
      (((InstanceManager.empty c).insert A).1.insert B).2).1.len = 2 ∧
    (((((InstanceManager.empty c).insert A).1.insert B).1.insert C).1.remove
        (((InstanceManager.empty c).insert A).1.insert B).2).1.resolve
        ((((InstanceManager.empty c).insert A).1.insert B).1.insert C).2
      = ((((InstanceManager.empty c).insert A).1.insert B).1.insert C).1.resolve
        (((InstanceManager.empty c).insert A).1.insert B).2 ∧
    (((((InstanceManager.empty c).insert A).1.insert B).1.insert C).1.remove
        (((InstanceManager.empty c).insert A).1.insert B).2).1.resolve
        ((((InstanceManager.empty c).insert A).1.insert B).1.insert C).2
      = some 1 ∧
    ((((((InstanceManager.empty c).insert A).1.insert B).1.insert C).1.remove
        (((InstanceManager.empty c).insert A).1.insert B).2).1.buffer).2
      = some [A, C] ∧
    (((((InstanceManager.empty c).insert A).1.insert B).1.insert C).1.remove
        (((InstanceManager.empty c).insert A).1.insert B).2).1.remove
        (((InstanceManager.empty c).insert A).1.insert B).2
      = ((((((InstanceManager.empty c).insert A).1.insert B).1.insert C).1.remove
          (((InstanceManager.empty c).insert A).1.insert B).2).1, false) := by
  refine ⟨rfl, rfl, rfl, rfl, rfl, ?_, rfl⟩
  refine Eq.trans (buffer_some _ ?_) ?_
  · show (2 : Nat) ≠ 0
    norm_num
  · rfl

/-- C7: inserting the records of `L` in order into a fresh store whose initial
GPU capacity `c` is exceeded (`c < L.length`) never fails — every insert is a
total operation — and the final `buffer()` holds exactly those records in
insertion order; moreover the `k`-th issued handle resolves to packed index
`k` and reading that record back yields the `k`-th inserted payload,
regardless of how many capacity reallocations occurred. -/
theorem C7_capacity_growth (c : Nat) (L : List α) (hc : c < L.length) :
    (applyOpsH c (L.map Op.insert)).1.len = L.length ∧
    ((applyOpsH c (L.map Op.insert)).1.buffer).2 = some L ∧
    (∀ k : Nat, k < L.length →
      (applyOpsH c (L.map Op.insert)).2[k]? = some ⟨k, 0⟩ ∧
      (applyOpsH c (L.map Op.insert)).1.resolve ⟨k, 0⟩ = some k ∧
      ((applyOpsH c (L.map Op.insert)).1.packed[k]?).map (fun rec => rec.data)
        = L[k]?) := by
  rw [applyOpsH_insert_run]
  dsimp only
  have hlen : (pureState c L : InstanceManager α).len = L.length := purePacked_length L 0
  refine ⟨hlen, ?_, ?_⟩
  · rw [buffer_some]
    · show some ((purePacked L 0).map fun r => r.data) = some L
      rw [purePacked_map_data]
    · show (purePacked L 0).length ≠ 0
      rw [purePacked_length]
      omega
  · intro k hk
    refine ⟨?_, pureState_resolve c L k hk, pureState_read c L k⟩
    rw [List.getElem?_map, List.getElem?_range hk]
    rfl

/-- Witness for C7: inserting three records into a store of initial capacity 1
yields a buffer of exactly those records, with each handle resolving to its
insertion index. -/
theorem C7_witness :
    ((applyOpsH (α := Nat) 1 ([10, 20, 30].map Op.insert)).1.buffer).2
        = some [10, 20, 30] ∧
    (applyOpsH (α := Nat) 1 ([10, 20, 30].map Op.insert)).1.resolve ⟨2, 0⟩ = some 2 :=
  ⟨(C7_capacity_growth 1 [10, 20, 30] (by decide)).2.1,
   ((C7_capacity_growth (α := Nat) 1 [10, 20, 30] (by decide)).2.2 2 (by decide)).2.1⟩

/-- C8: the wire renderer's instance record has exactly the fields
position (2 x f32), size (2 x f32) and a u32 flag, and `Instance::new` maps a
`WireRect` to it field by field: position and size are copied unchanged and
`is_powered` is converted to a `u32` with `false` mapped to 0 and `true` to 1
(in particular the flag always fits in 32 bits). -/
theorem C8_instance_new_field_map (w : WireRect) :
    (Instance.new w).position = w.position ∧
    (Instance.new w).size = w.size ∧
    (Instance.new w).is_powered = boolToU32 w.is_powered ∧
    boolToU32 false = 0 ∧ boolToU32 true = 1 ∧
    (Instance.new w).is_powered < 2 ^ 32 := by
  refine ⟨rfl, rfl, rfl, rfl, rfl, ?_⟩
  show boolToU32 w.is_powered < 2 ^ 32
  unfold boolToU32
  split <;> norm_num

/-- Counterexample to C9 as stated: the conversion is `i32` arithmetic, and at
the representable endpoints `(0,0)` and `(i32::MIN + 1, 0)` the source's
`abs_size - size` overflows `i32` (panicking in the dev profile and wrapping
to `-2` in release), so the two orientations yield different `WireRect`s; and
at the endpoints `(0,0)` and `(i32::MIN, 0)` the wrapped `abs` is negative, so
the size bound fails as well. -/
theorem C9_counterexample :
    (WireRect.fromWire ⟨(0, 0), (-2147483647, 0), false⟩
      ≠ WireRect.fromWire ⟨(-2147483647, 0), (0, 0), false⟩) ∧
    ¬ (2 * WIRE_RADIUS ≤ (WireRect.fromWire ⟨(0, 0), (-2147483648, 0), false⟩).size.1) := by
  constructor
  · intro hcon
    have h1 : (WireRect.fromWire ⟨(0, 0), (-2147483647, 0), false⟩).position.1
        = (WireRect.fromWire ⟨(-2147483647, 0), (0, 0), false⟩).position.1 := by
      rw [hcon]
    unfold WireRect.fromWire at h1
    dsimp only at h1
    rw [show i32sub 0
          (i32div (i32sub (i32abs (i32sub (-2147483647) 0)) (i32sub (-2147483647) 0)) 2)
        = (1 : Int) from by decide] at h1
    rw [show i32sub (-2147483647)
          (i32div (i32sub (i32abs (i32sub 0 (-2147483647))) (i32sub 0 (-2147483647))) 2)
        = (-2147483647 : Int) from by decide] at h1
    norm_num at h1
  · intro hcon
    unfold WireRect.fromWire at hcon
    dsimp only at hcon
    rw [show i32abs (i32sub (-2147483648) 0) = (-2147483648 : Int) from by decide] at hcon
    norm_num [WIRE_RADIUS] at hcon

/-- C9 (amended): for endpoints that are representable `i32` points whose
coordinate differences stay at most `2^30 - 1` in magnitude — so that none of
the conversion's `i32` operations overflows — converting a `Wire` to a
`WireRect` is symmetric in its endpoints, and both components of the resulting
size are at least `2 * WIRE_RADIUS`, in particular nonnegative. -/
theorem C9_fromWire_symmetric_and_bounded (a b : Int × Int) (p : Bool)
    (ha1 : i32InRange a.1) (ha2 : i32InRange a.2)
    (hb1 : i32InRange b.1) (hb2 : i32InRange b.2)
    (hs1 : |b.1 - a.1| ≤ 2 ^ 30 - 1) (hs2 : |b.2 - a.2| ≤ 2 ^ 30 - 1) :
    WireRect.fromWire ⟨a, b, p⟩ = WireRect.fromWire ⟨b, a, p⟩ ∧
    2 * WIRE_RADIUS ≤ (WireRect.fromWire ⟨a, b, p⟩).size.1 ∧
    2 * WIRE_RADIUS ≤ (WireRect.fromWire ⟨a, b, p⟩).size.2 ∧
    0 ≤ (WireRect.fromWire ⟨a, b, p⟩).size.1 ∧
    0 ≤ (WireRect.fromWire ⟨a, b, p⟩).size.2 := by
  have hs1' : |a.1 - b.1| ≤ 2 ^ 30 - 1 := by rwa [abs_sub_comm]
  have hs2' : |a.2 - b.2| ≤ 2 ^ 30 - 1 := by rwa [abs_sub_comm]
  have hnn : ∀ s : Int, (0 : Rat) ≤ (|s| : Int) := by
    intro s
    exact_mod_cast abs_nonneg s
  have hrad : (0 : Rat) ≤ 2 * WIRE_RADIUS := by norm_num [WIRE_RADIUS]
  refine ⟨?_, ?_, ?_, ?_, ?_⟩
  · unfold WireRect.fromWire
    dsimp only
    rw [i32_wire_pos ha1 hb1 hs1, i32_wire_pos ha2 hb2 hs2,
        i32_wire_pos hb1 ha1 hs1', i32_wire_pos hb2 ha2 hs2',
        i32_wire_abs hs1, i32_wire_abs hs2, i32_wire_abs hs1', i32_wire_abs hs2']
    rw [WireRect.mk.injEq]
    refine ⟨?_, ?_, rfl⟩
    · rw [Prod.mk.injEq]
      constructor
      · rw [add_left_inj]
        exact_mod_cast tdiv_center_symm a.1 b.1
      · rw [add_left_inj]
        exact_mod_cast tdiv_center_symm a.2 b.2
    · rw [Prod.mk.injEq]
      constructor
      · rw [add_left_inj, abs_sub_comm]
      · rw [add_left_inj, abs_sub_comm]
  · unfold WireRect.fromWire
    dsimp only
    rw [i32_wire_abs hs1]
    exact le_add_of_nonneg_left (hnn _)
  · unfold WireRect.fromWire
    dsimp only
    rw [i32_wire_abs hs2]
    exact le_add_of_nonneg_left (hnn _)
  · unfold WireRect.fromWire
    dsimp only
    rw [i32_wire_abs hs1]
    exact add_nonneg (hnn _) hrad
  · unfold WireRect.fromWire
    dsimp only
    rw [i32_wire_abs hs2]
    exact add_nonneg (hnn _) hrad

/-- Witness for C9: symmetry at the unit wire from (0,0) to (1,0), whose
coordinates satisfy every no-overflow hypothesis. -/
theorem C9_witness :
    WireRect.fromWire ⟨(0, 0), (1, 0), true⟩ = WireRect.fromWire ⟨(1, 0), (0, 0), true⟩ :=
  (C9_fromWire_symmetric_and_bounded (0, 0) (1, 0) true
    (by decide) (by decide) (by decide) (by decide) (by decide) (by decide)).1

/-- Counterexample to C10 as stated: the cursor delta is `i32` arithmetic, and
at the representable tiles start (0,0), cursor (i32::MIN, 0) the source's
`delta.x.abs()` overflows (panicking in dev and returning `i32::MIN` in
release), so the program takes the Y branch even though mathematically
`|dx| > |dy|`: the end position stays (0,0) instead of being the claimed X
projection (i32::MIN, 0). -/
theorem C10_counterexample :
    |(-2147483648 : Int) - 0| > |(0 : Int) - 0| ∧
    (placeUpdate ⟨(0, 0), (0, 0)⟩ (-2147483648, 0)).end_position = (0, 0) ∧
    (placeUpdate ⟨(0, 0), (0, 0)⟩ (-2147483648, 0)).end_position ≠ (-2147483648, 0) := by
  refine ⟨by decide, by decide, by decide⟩

/-- C10 (amended): in place mode, for representable `i32` start and cursor
tiles, `State::update` keeps the tracked segment axis-aligned — the new end
position differs from the start position in at most one coordinate — and
whenever neither cursor-delta coordinate overflows `i32` (each at most
`2^31 - 1` in magnitude, which excludes the wrapping `abs` at `i32::MIN`),
the delta is projected onto the X axis when `|dx| > |dy|` and onto the Y axis
otherwise; at gesture start the end position equals the start position. -/
theorem C10_place_axis_aligned (st : PlaceState) (cursor : Int × Int)
    (h1 : i32InRange st.start_position.1) (h2 : i32InRange st.start_position.2)
    (h3 : i32InRange cursor.1) (h4 : i32InRange cursor.2) :
    (placeUpdate st cursor).start_position = st.start_position ∧
    ((placeUpdate st cursor).end_position.1 = st.start_position.1 ∨
      (placeUpdate st cursor).end_position.2 = st.start_position.2) ∧
    (|cursor.1 - st.start_position.1| ≤ 2 ^ 31 - 1 →
      |cursor.2 - st.start_position.2| ≤ 2 ^ 31 - 1 →
      (|cursor.1 - st.start_position.1| > |cursor.2 - st.start_position.2| →
        (placeUpdate st cursor).end_position = (cursor.1, st.start_position.2)) ∧
      (¬ |cursor.1 - st.start_position.1| > |cursor.2 - st.start_position.2| →
        (placeUpdate st cursor).end_position = (st.start_position.1, cursor.2))) ∧
    (∀ p : Int × Int,
      (placeGestureStart p).end_position = (placeGestureStart p).start_position) := by
  refine ⟨rfl, ?_, ?_, fun p => rfl⟩
  · by_cases hpc : i32abs (i32sub cursor.1 st.start_position.1)
        > i32abs (i32sub cursor.2 st.start_position.2)
    · refine Or.inr ?_
      unfold placeUpdate ivecSub ivecMul ivecAdd IVec2_X IVec2_Y
      dsimp only
      rw [if_pos hpc]
      dsimp only
      rw [i32mul_zero, i32add_zero]
      exact toI32_eq_self h2
    · refine Or.inl ?_
      unfold placeUpdate ivecSub ivecMul ivecAdd IVec2_X IVec2_Y
      dsimp only
      rw [if_neg hpc]
      dsimp only
      rw [i32mul_zero, i32add_zero]
      exact toI32_eq_self h1
  · intro hd1 hd2
    have hbd1 := abs_le.mp hd1
    have hbd2 := abs_le.mp hd2
    have h01 := abs_nonneg (cursor.1 - st.start_position.1)
    have h02 := abs_nonneg (cursor.2 - st.start_position.2)
    have htx : toI32 (cursor.1 - st.start_position.1) = cursor.1 - st.start_position.1 :=
      toI32_eq_self ⟨by omega, by omega⟩
    have hty : toI32 (cursor.2 - st.start_position.2) = cursor.2 - st.start_position.2 :=
      toI32_eq_self ⟨by omega, by omega⟩
    have hdx : i32sub cursor.1 st.start_position.1 = cursor.1 - st.start_position.1 := by
      unfold i32sub
      exact htx
    have hdy : i32sub cursor.2 st.start_position.2 = cursor.2 - st.start_position.2 := by
      unfold i32sub
      exact hty
    have hax : i32abs (i32sub cursor.1 st.start_position.1)
        = |cursor.1 - st.start_position.1| := by
      unfold i32abs
      rw [hdx]
      exact toI32_eq_self ⟨by omega, by omega⟩
    have hay : i32abs (i32sub cursor.2 st.start_position.2)
        = |cursor.2 - st.start_position.2| := by
      unfold i32abs
      rw [hdy]
      exact toI32_eq_self ⟨by omega, by omega⟩
    constructor
    · intro hgt
      unfold placeUpdate ivecSub ivecMul ivecAdd IVec2_X IVec2_Y
      dsimp only
      rw [hax, hay, if_pos hgt]
      dsimp only
      rw [i32mul_one, i32mul_zero, i32add_zero, hdx, htx]
      rw [Prod.mk.injEq]
      constructor
      · unfold i32add
        rw [show st.start_position.1 + (cursor.1 - st.start_position.1) = cursor.1 by ring]
        exact toI32_eq_self h3
      · exact toI32_eq_self h2
    · intro hle
      unfold placeUpdate ivecSub ivecMul ivecAdd IVec2_X IVec2_Y
      dsimp only
      rw [hax, hay, if_neg hle]
      dsimp only
      rw [i32mul_one, i32mul_zero, i32add_zero, hdy, hty]
      rw [Prod.mk.injEq]
      constructor
      · exact toI32_eq_self h1
      · unfold i32add
        rw [show st.start_position.2 + (cursor.2 - st.start_position.2) = cursor.2 by ring]
        exact toI32_eq_self h4

/-- Witness for C10: at small in-range tiles a mostly-horizontal drag snaps to
the X axis and a mostly-vertical drag snaps to the Y axis. -/
theorem C10_witness :
    (placeUpdate ⟨(2, 3), (2, 3)⟩ (7, 4)).end_position = (7, 3) ∧
    (placeUpdate ⟨(2, 3), (2, 3)⟩ (3, 9)).end_position = (2, 9) :=
  ⟨((C10_place_axis_aligned ⟨(2, 3), (2, 3)⟩ (7, 4)
      (by decide) (by decide) (by decide) (by decide)).2.2.1
      (by decide) (by decide)).1 (by decide),
   ((C10_place_axis_aligned ⟨(2, 3), (2, 3)⟩ (3, 9)
      (by decide) (by decide) (by decide) (by decide)).2.2.1
      (by decide) (by decide)).2 (by decide)⟩

end FlipFlop
